import Mathlib

/-!
Verification development for the `rpc-load-balancer` repository (Go).

The Go sources are shallowly embedded as executable Lean definitions:

* `internal/types` (`RpcEndpoint`, `EthBlockNumberResponse`)  → structures below;
  `time.Time`, `time.Duration` and Go `int64` are modelled as `Int`
  (nanosecond counts for times and durations, as in Go's representation).
* `internal/gateway/checker.go` `CheckEndpointStatus` → `checkEndpointStatus`.
  The network interaction of one probe (request creation, `client.Do`,
  body read, JSON decode) is modelled by an oracle value of type
  `ProbeOutcome` consumed by the pure state-transition function.
* `internal/gateway/checker.go` `SelectBestEndpoint` (selection part, after
  the probe fan-out) → `selectBestEndpointWith` and `selectBestEndpointPass`.
* `internal/gateway/handler.go` `ProxyHandler` `modifyResponse` 429 branch
  → `proxyThrottleUpdate`.
* `internal/config` `LoadConfig` (default-filling section) → `loadConfigDefaults`.
* `math/big` `Int.SetString(s, 0)` → `bigIntSetString0`;
  `math/big` `Int.Int64` → `bigIntInt64`.
* Go's `sort.Slice` → embedded further below.
-/

/-- Value of a digit character for `math/big`'s scanner: `0`-`9`, `a`-`z`,
`A`-`Z`, accepted when its value is below the base. -/
def digitVal (base : Nat) (c : Char) : Option Nat :=
  let v : Option Nat :=
    if 48 ≤ c.toNat ∧ c.toNat ≤ 57 then some (c.toNat - 48)
    else if 97 ≤ c.toNat ∧ c.toNat ≤ 122 then some (c.toNat - 97 + 10)
    else if 65 ≤ c.toNat ∧ c.toNat ≤ 90 then some (c.toNat - 65 + 10)
    else none
  match v with
  | some n => if n < base then some n else none
  | none => none

/-- Digit scanner of `math/big.Int.SetString` with base argument `0`:
consumes the whole remaining string; underscores are permitted only between
successive digits or between the base marker and the first digit; at least
one digit is required (`acc = none` means no digit seen yet).
`lastSep` records whether the previous character was an underscore (a
trailing underscore is an error); `sepOk` records whether an underscore may
appear now. -/
def scanDigits (base : Nat) : List Char → Bool → Bool → Option Nat → Option Nat
  | [], lastSep, _, acc => if lastSep then none else acc
  | c :: rest, _, sepOk, acc =>
    match digitVal base c with
    | some v => scanDigits base rest false true (some (acc.getD 0 * base + v))
    | none =>
      if c = '_' then
        if sepOk then scanDigits base rest true false acc else none
      else none

/-- Model of Go `math/big` `(*Int).SetString(s, 0)` (as used at
`checker.go:110`): optional sign, then automatic base detection — `0b`/`0B`
binary, `0o`/`0O` octal, `0x`/`0X` hexadecimal, a bare leading `0` legacy
octal, decimal otherwise.  The entire string must be consumed; returns
`none` exactly when Go returns `ok = false`.  Note the scanner accepts a
sign, so negative numeric strings do parse. -/
def bigIntSetString0 (s : String) : Option Int :=
  let cs := s.toList
  let signed : Bool × List Char :=
    match cs with
    | '+' :: rest => (false, rest)
    | '-' :: rest => (true, rest)
    | _ => (false, cs)
  let neg := signed.1
  let res : Option Nat :=
    match signed.2 with
    | '0' :: 'b' :: rest => scanDigits 2 rest false true none
    | '0' :: 'B' :: rest => scanDigits 2 rest false true none
    | '0' :: 'o' :: rest => scanDigits 8 rest false true none
    | '0' :: 'O' :: rest => scanDigits 8 rest false true none
    | '0' :: 'x' :: rest => scanDigits 16 rest false true none
    | '0' :: 'X' :: rest => scanDigits 16 rest false true none
    | '0' :: rest => scanDigits 8 rest false true (some 0)
    | other => scanDigits 10 other false false none
  match res with
  | none => none
  | some n => some (if neg then -(n : Int) else (n : Int))

/-- Model of Go `math/big` `(*Int).Int64` (as used at `checker.go:119`):
take the low 64 bits of the absolute value, reinterpret them as a signed
64-bit integer, and negate (with 64-bit wrap-around) when the value is
negative. -/
def bigIntInt64 (v : Int) : Int :=
  let u : Nat := v.natAbs % 2 ^ 64
  let s : Int := if u < 2 ^ 63 then (u : Int) else (u : Int) - 2 ^ 64
  if v < 0 then ((-s + 2 ^ 63) % 2 ^ 64) - 2 ^ 63 else s

/-- Go struct `internal/types.RpcEndpoint` (part_002 lines 10-18).  `URL` stands for
the `url.URL` reference via its string rendering; the `sync.RWMutex` field
has no sequential content.  Times and durations are `Int` nanoseconds. -/
structure RpcEndpoint where
  URL : String
  BlockNumber : Int
  Latency : Int
  IsRateLimited : Bool
  RateLimitedUntil : Int
  IsReachable : Bool
deriving Repr, DecidableEq, Inhabited

/-- JSON-RPC error object inside `internal/types.EthBlockNumberResponse`. -/
structure RpcError where
  Code : Int
  Message : String
deriving Repr, DecidableEq, Inhabited

/-- Go struct `internal/types.EthBlockNumberResponse`. -/
structure EthBlockNumberResponse where
  Jsonrpc : String
  Result : String
  Error : Option RpcError
  ID : Int
deriving Repr, DecidableEq, Inhabited

/-- Result of reading and decoding the probe response body
(`checker.go:83-99`): the body read can fail, the JSON decode can fail, or
a decoded `EthBlockNumberResponse` is obtained. -/
inductive BodyOutcome where
  | readError
  | jsonInvalid
  | jsonOk (resp : EthBlockNumberResponse)
deriving Repr, DecidableEq

/-- Oracle for the network interaction of one probe (`checker.go:39-99`):
request construction can fail, the round-trip can fail, or an HTTP response
with a status code, a measured latency and a body outcome is obtained. -/
inductive ProbeOutcome where
  | reqError
  | transportError
  | httpResponse (status : Nat) (latency : Int) (body : BodyOutcome)
deriving Repr, DecidableEq

/-- Go struct `internal/config.Config`. -/
structure Config where
  GatewayPort : String
  MetricsPort : String
  CheckIntervalStr : String
  RequestTimeoutStr : String
  RateLimitBackoffStr : String
  BlockTolerance : Int
  RpcEndpoints : List String
  Verbose : Bool
  CheckInterval : Int
  RequestTimeout : Int
  RateLimitBackoff : Int
deriving Repr, DecidableEq, Inhabited

/-- Body of `CheckEndpointStatus` after the backoff gate
(checker.go:36-123), as a pure state transition on one endpoint record.
`now` is the wall-clock instant sampled once at entry (`checker.go:25`,
reused by the 429 branch at `checker.go:68`); `o` is the probe's network
outcome.  `ep1.Latency` is assigned only once `client.Do` returned a
response (`checker.go:62`), hence only in the `httpResponse` case.
Metrics calls and logging have no record-state effect and are omitted. -/
def checkProbeResult (cfg : Config) (ep1 : RpcEndpoint) (now : Int)
    (o : ProbeOutcome) : RpcEndpoint :=
  match o with
  | .reqError => { ep1 with IsReachable := false }
  | .transportError => { ep1 with IsReachable := false }
  | .httpResponse status latency body =>
    let ep2 := { ep1 with Latency := latency }
    if status = 429 then
      { ep2 with IsRateLimited := true,
                 RateLimitedUntil := now + cfg.RateLimitBackoff,
                 IsReachable := false }
    else if status ≠ 200 then
      { ep2 with IsReachable := false }
    else
      match body with
      | .readError => { ep2 with IsReachable := false }
      | .jsonInvalid => { ep2 with IsReachable := false }
      | .jsonOk resp =>
        if resp.Error.isSome then { ep2 with IsReachable := false }
        else
          match bigIntSetString0 resp.Result with
          | none => { ep2 with IsReachable := false }
          | some v => { ep2 with BlockNumber := bigIntInt64 v, IsReachable := true }

/-- Go method `CheckEndpointStatus` (checker.go:19-123): the backoff gate
(checker.go:25-34) — early return with `IsReachable := false` while
strictly inside the backoff window (`now.Before`), flag clearing once
strictly past it (`now.After`), so at `now = RateLimitedUntil` neither
branch fires — followed by `checkProbeResult` on the network outcome. -/
def checkEndpointStatus (cfg : Config) (ep : RpcEndpoint) (now : Int)
    (o : ProbeOutcome) : RpcEndpoint :=
  if ep.IsRateLimited ∧ now < ep.RateLimitedUntil then
    { ep with IsReachable := false }
  else
    checkProbeResult cfg
      (if ep.IsRateLimited ∧ ep.RateLimitedUntil < now then
        { ep with IsRateLimited := false } else ep) now o

/-- The 429 branch of `ProxyHandler`'s `modifyResponse`
(handler.go:31-34): flags the current-best record as rate limited.  It
writes `IsRateLimited` and `RateLimitedUntil` only; `IsReachable` is not
touched. -/
def proxyThrottleUpdate (cfg : Config) (ep : RpcEndpoint) (now : Int) : RpcEndpoint :=
  { ep with IsRateLimited := true, RateLimitedUntil := now + cfg.RateLimitBackoff }

/-- Default-filling section of `LoadConfig` (part_001 lines 94-112), acting
on the struct state left by `yaml.Unmarshal` (a key absent from the file
leaves the Go zero value in its field). -/
def loadConfigDefaults (c : Config) : Config :=
  -- the Go code applies these `if` blocks sequentially; each one reads and
  -- writes only its own field, so the sequential composition equals this
  -- simultaneous update
  { c with
    GatewayPort := if c.GatewayPort = "" then ":8545" else c.GatewayPort,
    MetricsPort := if c.MetricsPort = "" then ":9090" else c.MetricsPort,
    CheckIntervalStr := if c.CheckIntervalStr = "" then "30s" else c.CheckIntervalStr,
    RequestTimeoutStr := if c.RequestTimeoutStr = "" then "5s" else c.RequestTimeoutStr,
    RateLimitBackoffStr :=
      if c.RateLimitBackoffStr = "" then "1m" else c.RateLimitBackoffStr,
    BlockTolerance := if c.BlockTolerance = 0 then 5 else c.BlockTolerance }

/-! ## Embedding of Go's `sort.Slice`

`checker.go:182-188` sorts `finalCandidates` with `sort.Slice` and a
less-function comparing latencies.  `sort.Slice` (Go 1.19+, here Go 1.24
per the Dockerfile) runs the pattern-defeating quicksort of
`sort/zsortanyfunc.go`, called as `pdqsort_func(data, 0, n, bits.Len(n))`.
All helpers below are direct translations of that file; lists stand for
the slice, positional `lget`/`lswap` for `data.Less`/`data.Swap`.  Go
loops become recursions on an explicit step budget (`fuel`), always called
with a budget that dominates the loop's iteration count. -/

/-- Positional read of the slice (`data` at index `i`). -/
def lget [Inhabited α] (l : List α) (i : Nat) : α := l.getD i default

/-- Go `data.Swap(i, j)`. -/
def lswap [Inhabited α] (l : List α) (i j : Nat) : List α :=
  let xi := lget l i
  let xj := lget l j
  (l.set i xj).set j xi

/-- Inner loop of `insertionSort_func`: `for j := i; j > a && data.Less(j, j-1); j--`,
swapping downwards.  Structural recursion on `j`. -/
def insertionSortInner [Inhabited α] (less : α → α → Bool) (a : Nat) :
    List α → Nat → List α
  | data, 0 => data
  | data, j + 1 =>
    if a < j + 1 ∧ less (lget data (j + 1)) (lget data j) then
      insertionSortInner less a (lswap data (j + 1) j) j
    else data

/-- Outer loop of `insertionSort_func`, `i` running from `a+1` while `i < b`;
the remaining iteration count is the recursion argument. -/
def insertionSortOuter [Inhabited α] (less : α → α → Bool) (a : Nat) :
    List α → Nat → Nat → List α
  | data, _, 0 => data
  | data, i, steps + 1 =>
    insertionSortOuter less a (insertionSortInner less a data i) (i + 1) steps

/-- Go `insertionSort_func(data, a, b)`. -/
def insertionSort [Inhabited α] (less : α → α → Bool) (a b : Nat) (data : List α) :
    List α :=
  insertionSortOuter less a data (a + 1) (b - (a + 1))

/-- Loop of Go `siftDown_func`; `root` strictly increases, so `hi + 1` fuel
suffices. -/
def siftDownGo [Inhabited α] (less : α → α → Bool) (hi first : Nat) :
    Nat → List α → Nat → List α
  | 0, data, _ => data
  | fuel + 1, data, root =>
    let child0 := 2 * root + 1
    if child0 < hi then
      let child :=
        if child0 + 1 < hi ∧ less (lget data (first + child0)) (lget data (first + child0 + 1))
        then child0 + 1 else child0
      if less (lget data (first + root)) (lget data (first + child)) then
        siftDownGo less hi first fuel (lswap data (first + root) (first + child)) child
      else data
    else data

/-- Go `siftDown_func(data, lo, hi, first)`. -/
def siftDown [Inhabited α] (less : α → α → Bool) (lo hi first : Nat) (data : List α) :
    List α :=
  siftDownGo less hi first (hi + 1) data lo

/-- Heap-building loop of `heapSort_func`: `for i := (hi-1)/2; i >= 0; i--`. -/
def heapSortBuild [Inhabited α] (less : α → α → Bool) (hi first : Nat) :
    List α → Nat → Nat → List α
  | data, _, 0 => data
  | data, i, cnt + 1 =>
    heapSortBuild less hi first (siftDown less i hi first data) (i - 1) cnt

/-- Pop loop of `heapSort_func`: `for i := hi-1; i >= 1; i--`. -/
def heapSortPop [Inhabited α] (less : α → α → Bool) (first : Nat) :
    List α → Nat → Nat → List α
  | data, _, 0 => data
  | data, i, cnt + 1 =>
    heapSortPop less first (siftDown less 0 i first (lswap data first (first + i))) (i - 1) cnt

/-- Go `heapSort_func(data, a, b)`. -/
def heapSort [Inhabited α] (less : α → α → Bool) (a b : Nat) (data : List α) : List α :=
  let first := a
  let hi := b - a
  let d1 := heapSortBuild less hi first data ((hi - 1) / 2) ((hi - 1) / 2 + 1)
  heapSortPop less first d1 (hi - 1) (hi - 1)

/-- Loop of Go `reverseRange_func`. -/
def reverseRangeGo [Inhabited α] : Nat → List α → Nat → Nat → List α
  | 0, data, _, _ => data
  | fuel + 1, data, i, j =>
    if i < j then reverseRangeGo fuel (lswap data i j) (i + 1) (j - 1) else data

/-- Go `reverseRange_func(data, a, b)`. -/
def reverseRange [Inhabited α] (a b : Nat) (data : List α) : List α :=
  reverseRangeGo b data a (b - 1)

/-- Go `order2_func(data, a, b, &swaps)`: orders two indices, counting swaps. -/
def order2 [Inhabited α] (less : α → α → Bool) (data : List α) (a b swaps : Nat) :
    (Nat × Nat) × Nat :=
  if less (lget data b) (lget data a) then ((b, a), swaps + 1) else ((a, b), swaps)

/-- Go `median_func(data, a, b, c, &swaps)`. -/
def median [Inhabited α] (less : α → α → Bool) (data : List α) (a b c swaps : Nat) :
    Nat × Nat :=
  let r1 := order2 less data a b swaps
  let r2 := order2 less data r1.1.2 c r1.2
  let r3 := order2 less data r1.1.1 r2.1.1 r2.2
  (r3.1.2, r3.2)

/-- Go `medianAdjacent_func(data, a, &swaps)`. -/
def medianAdjacent [Inhabited α] (less : α → α → Bool) (data : List α) (a swaps : Nat) :
    Nat × Nat :=
  median less data (a - 1) a (a + 1) swaps

/-- Go `choosePivot_func(data, a, b)`, returning `(pivot, hint)` with the
hint encoded as in Go: 0 unknown, 1 increasing, 2 decreasing
(`shortestNinther = 50`, `maxSwaps = 4*3 = 12`). -/
def choosePivot [Inhabited α] (less : α → α → Bool) (data : List α) (a b : Nat) :
    Nat × Nat :=
  let l := b - a
  let i0 := a + l / 4 * 1
  let j0 := a + l / 4 * 2
  let k0 := a + l / 4 * 3
  if 8 ≤ l then
    let step1 : Nat × Nat × Nat × Nat :=
      if 50 ≤ l then
        let m1 := medianAdjacent less data i0 0
        let m2 := medianAdjacent less data j0 m1.2
        let m3 := medianAdjacent less data k0 m2.2
        (m1.1, m2.1, m3.1, m3.2)
      else (i0, j0, k0, 0)
    let m := median less data step1.1 step1.2.1 step1.2.2.1 step1.2.2.2
    (m.1, if m.2 = 0 then 1 else if m.2 = 12 then 2 else 0)
  else (j0, 1)

/-- Leftward scan of `partition_func`: `for i <= j && data.Less(i, a) { i++ }`. -/
def partScanI [Inhabited α] (less : α → α → Bool) (data : List α) (a j : Nat) :
    Nat → Nat → Nat
  | 0, i => i
  | fuel + 1, i =>
    if i ≤ j ∧ less (lget data i) (lget data a) then partScanI less data a j fuel (i + 1)
    else i

/-- Rightward scan of `partition_func`: `for i <= j && !data.Less(j, a) { j-- }`. -/
def partScanJ [Inhabited α] (less : α → α → Bool) (data : List α) (a i : Nat) :
    Nat → Nat → Nat
  | 0, j => j
  | fuel + 1, j =>
    if i ≤ j ∧ ¬ less (lget data j) (lget data a) then partScanJ less data a i fuel (j - 1)
    else j

/-- Main loop of `partition_func` after the first swap. -/
def partitionLoop [Inhabited α] (less : α → α → Bool) (a b : Nat) :
    Nat → List α → Nat → Nat → List α × Nat
  | 0, data, _, j => (data, j)
  | fuel + 1, data, i, j =>
    let i1 := partScanI less data a j (b + 2) i
    let j1 := partScanJ less data a i1 (b + 2) j
    if j1 < i1 then (data, j1)
    else partitionLoop less a b fuel (lswap data i1 j1) (i1 + 1) (j1 - 1)

/-- Go `partition_func(data, a, b, pivot)`, returning the permuted slice,
`newpivot` and `alreadyPartitioned`. -/
def partition [Inhabited α] (less : α → α → Bool) (a b pivot : Nat) (data0 : List α) :
    List α × Nat × Bool :=
  let data1 := lswap data0 a pivot
  let i1 := partScanI less data1 a (b - 1) (b + 2) (a + 1)
  let j1 := partScanJ less data1 a i1 (b + 2) (b - 1)
  if j1 < i1 then
    (lswap data1 j1 a, j1, true)
  else
    let data2 := lswap data1 i1 j1
    let r := partitionLoop less a b (b + 2) data2 (i1 + 1) (j1 - 1)
    (lswap r.1 r.2 a, r.2, false)

/-- Leftward scan of `partitionEqual_func`: `for i <= j && !data.Less(a, i) { i++ }`. -/
def partEqScanI [Inhabited α] (less : α → α → Bool) (data : List α) (a j : Nat) :
    Nat → Nat → Nat
  | 0, i => i
  | fuel + 1, i =>
    if i ≤ j ∧ ¬ less (lget data a) (lget data i) then partEqScanI less data a j fuel (i + 1)
    else i

/-- Rightward scan of `partitionEqual_func`: `for i <= j && data.Less(a, j) { j-- }`. -/
def partEqScanJ [Inhabited α] (less : α → α → Bool) (data : List α) (a i : Nat) :
    Nat → Nat → Nat
  | 0, j => j
  | fuel + 1, j =>
    if i ≤ j ∧ less (lget data a) (lget data j) then partEqScanJ less data a i fuel (j - 1)
    else j

/-- Loop of `partitionEqual_func`. -/
def partitionEqualLoop [Inhabited α] (less : α → α → Bool) (a b : Nat) :
    Nat → List α → Nat → Nat → List α × Nat
  | 0, data, i, _ => (data, i)
  | fuel + 1, data, i, j =>
    let i1 := partEqScanI less data a j (b + 2) i
    let j1 := partEqScanJ less data a i1 (b + 2) j
    if j1 < i1 then (data, i1)
    else partitionEqualLoop less a b fuel (lswap data i1 j1) (i1 + 1) (j1 - 1)

/-- Go `partitionEqual_func(data, a, b, pivot)`, returning the permuted
slice and `newpivot`. -/
def partitionEqual [Inhabited α] (less : α → α → Bool) (a b pivot : Nat)
    (data0 : List α) : List α × Nat :=
  partitionEqualLoop less a b (b + 2) (lswap data0 a pivot) (a + 1) (b - 1)

/-- Scan of `partialInsertionSort_func`: `for i < b && !data.Less(i, i-1) { i++ }`. -/
def pisScan [Inhabited α] (less : α → α → Bool) (b : Nat) :
    Nat → List α → Nat → Nat
  | 0, _, i => i
  | fuel + 1, data, i =>
    if i < b ∧ ¬ less (lget data i) (lget data (i - 1)) then pisScan less b fuel data (i + 1)
    else i

/-- Left shift of `partialInsertionSort_func`: `for j := i-1; j >= 1; j--`. -/
def pisShiftLeft [Inhabited α] (less : α → α → Bool) :
    Nat → List α → Nat → List α
  | 0, data, _ => data
  | fuel + 1, data, j =>
    if 1 ≤ j then
      if less (lget data j) (lget data (j - 1)) then
        pisShiftLeft less fuel (lswap data j (j - 1)) (j - 1)
      else data
    else data

/-- Right shift of `partialInsertionSort_func`: `for j := i+1; j < b; j++`. -/
def pisShiftRight [Inhabited α] (less : α → α → Bool) (b : Nat) :
    Nat → List α → Nat → List α
  | 0, data, _ => data
  | fuel + 1, data, j =>
    if j < b then
      if less (lget data j) (lget data (j - 1)) then
        pisShiftRight less b fuel (lswap data j (j - 1)) (j + 1)
      else data
    else data

/-- Outer loop of `partialInsertionSort_func` (`maxSteps = 5`,
`shortestShifting = 50`); returns the slice and whether it is sorted. -/
def partialInsertionSortLoop [Inhabited α] (less : α → α → Bool) (a b : Nat) :
    Nat → List α → Nat → List α × Bool
  | 0, data, _ => (data, false)
  | steps + 1, data, i0 =>
    let i := pisScan less b (b + 1) data i0
    if i = b then (data, true)
    else if b - a < 50 then (data, false)
    else
      let d1 := lswap data i (i - 1)
      let d2 := if 2 ≤ i - a then pisShiftLeft less i d1 (i - 1) else d1
      let d3 := if 2 ≤ b - i then pisShiftRight less b (b + 1) d2 (i + 1) else d2
      partialInsertionSortLoop less a b steps d3 i

/-- Go `partialInsertionSort_func(data, a, b)`. -/
def partialInsertionSort [Inhabited α] (less : α → α → Bool) (a b : Nat)
    (data : List α) : List α × Bool :=
  partialInsertionSortLoop less a b 5 data (a + 1)

/-- Go `sort` package xorshift step (`*r ^= *r << 13; *r ^= *r >> 7;
*r ^= *r << 17`), on 64-bit words. -/
def xorshiftNext (r : Nat) : Nat :=
  let r1 := (r ^^^ (r <<< 13)) % 2 ^ 64
  let r2 := (r1 ^^^ (r1 >>> 7)) % 2 ^ 64
  (r2 ^^^ (r2 <<< 17)) % 2 ^ 64

/-- Fuelled binary length, `go` loop of `math/bits.Len` semantics:
number of bits needed to represent `n`; 64 units of fuel cover every Go
`int`. -/
def bitsLenGo : Nat → Nat → Nat
  | 0, _ => 0
  | fuel + 1, n => if n = 0 then 0 else bitsLenGo fuel (n / 2) + 1

/-- Go `math/bits.Len` on the 64-bit values that arise here. -/
def bitsLen (n : Nat) : Nat := bitsLenGo 64 n

/-- Go `nextPowerOfTwo(length) = 1 << bits.Len(length)`. -/
def nextPowerOfTwo (length : Nat) : Nat := 1 <<< bitsLen length

/-- One iteration of the swap loop in `breakPatterns_func`. -/
def breakPatternsStep [Inhabited α] (data : List α)
    (a idx length modulus r i : Nat) : List α × Nat :=
  let r1 := xorshiftNext r
  let other := r1 &&& (modulus - 1)
  let other1 := if length ≤ other then other - length else other
  (lswap data (idx - 1 + i) (a + other1), r1)

/-- Go `breakPatterns_func(data, a, b)`; the xorshift state is seeded with
the length and stepped three times. -/
def breakPatterns [Inhabited α] (a b : Nat) (data : List α) : List α :=
  let length := b - a
  if 8 ≤ length then
    let modulus := nextPowerOfTwo length
    let idx := a + length / 4 * 2 - 1
    let s1 := breakPatternsStep data a idx length modulus length 0
    let s2 := breakPatternsStep s1.1 a idx length modulus s1.2 1
    let s3 := breakPatternsStep s2.1 a idx length modulus s2.2 2
    s3.1
  else data

/-- Go `pdqsort_func(data, a, b, limit)` (`maxInsertion = 12`).  The
`for` loop and the recursive call on the shorter side both recurse here;
each consumes one unit of fuel and strictly shrinks `b - a`, so any fuel
above the initial length suffices.  A fresh Go call starts with
`wasBalanced = wasPartitioned = true`; the loop continuation keeps the
current values. -/
def pdqsortGo [Inhabited α] (less : α → α → Bool) :
    Nat → List α → Nat → Nat → Nat → Bool → Bool → List α
  | 0, data, _, _, _, _, _ => data
  | fuel + 1, data, a, b, limit, wasBalanced, wasPartitioned =>
    let length := b - a
    if length ≤ 12 then insertionSort less a b data
    else if limit = 0 then heapSort less a b data
    else
      let bp : List α × Nat :=
        if ¬ wasBalanced then (breakPatterns a b data, limit - 1) else (data, limit)
      let data1 := bp.1
      let limit1 := bp.2
      let pv := choosePivot less data1 a b
      let rev : List α × Nat × Nat :=
        if pv.2 = 2 then (reverseRange a b data1, (b - 1) - (pv.1 - a), 1)
        else (data1, pv.1, pv.2)
      let data2 := rev.1
      let pivot := rev.2.1
      let hint := rev.2.2
      let pis : List α × Bool :=
        if wasBalanced ∧ wasPartitioned ∧ hint = 1 then
          partialInsertionSort less a b data2
        else (data2, false)
      if pis.2 then pis.1
      else
        let data3 := pis.1
        if 0 < a ∧ ¬ less (lget data3 (a - 1)) (lget data3 pivot) then
          let pe := partitionEqual less a b pivot data3
          pdqsortGo less fuel pe.1 pe.2 b limit1 wasBalanced wasPartitioned
        else
          let pr := partition less a b pivot data3
          let data4 := pr.1
          let mid := pr.2.1
          let wasPartitioned1 := pr.2.2
          let leftLen := mid - a
          let rightLen := b - mid
          let balanceThreshold := length / 8
          let wasBalanced1 := decide (balanceThreshold ≤ min leftLen rightLen)
          if leftLen < rightLen then
            let d5 := pdqsortGo less fuel data4 a mid limit1 true true
            pdqsortGo less fuel d5 (mid + 1) b limit1 wasBalanced1 wasPartitioned1
          else
            let d5 := pdqsortGo less fuel data4 (mid + 1) b limit1 true true
            pdqsortGo less fuel d5 a mid limit1 wasBalanced1 wasPartitioned1

/-- Go `sort.Slice(x, less)`: `pdqsort_func(data, 0, n, bits.Len(uint(n)))`. -/
def goSortSlice [Inhabited α] (less : α → α → Bool) (l : List α) : List α :=
  pdqsortGo less (2 * l.length + 4) l 0 l.length (bitsLen l.length) true true

/-! ## Gateway state and the selection phase of `SelectBestEndpoint` -/

/-- Gateway state relevant to selection (part_001 lines 149-155):
the configured endpoint records in configuration order and the
current-best reference, modelled as an index into `Endpoints`
(`NewGateway` initializes it to the first endpoint, part_001 line 181). -/
structure GatewayState where
  Endpoints : List RpcEndpoint
  CurrentBest : Nat
deriving Repr, DecidableEq, Inhabited

/-- Go `GetBestEndpoint` (part_001 lines 187-191). -/
def getBestEndpoint (st : GatewayState) : RpcEndpoint :=
  lget st.Endpoints st.CurrentBest

/-- The less-function passed to `sort.Slice` at `checker.go:182-188`:
compare latencies only.  Entries are paired with their configuration index
to model Go's pointer identity of records. -/
def lessByLatency (p q : Nat × RpcEndpoint) : Bool :=
  decide (p.2.Latency < q.2.Latency)

/-- Candidate collection of `SelectBestEndpoint` (checker.go:142-151):
endpoints that are reachable and not rate limited, in configuration
order, tagged with their configuration index. -/
def candidatesOf (eps : List RpcEndpoint) : List (Nat × RpcEndpoint) :=
  eps.enum.filter (fun p => p.2.IsReachable && !p.2.IsRateLimited)

/-- Highest-block fold of `SelectBestEndpoint` (checker.go:140-148):
`highestBlock` starts at `-1` and is raised by candidate blocks only. -/
def highestBlockOf (cands : List (Nat × RpcEndpoint)) : Int :=
  cands.foldl (fun hb p => if hb < p.2.BlockNumber then p.2.BlockNumber else hb) (-1)

/-- Tip-freshness filter and fallback (checker.go:165-180):
`blockThreshold := highestBlock - BlockTolerance`; keep candidates at or
above the threshold; if none qualify, fall back to all candidates. -/
def finalCandidatesOf (cfg : Config) (eps : List RpcEndpoint) :
    List (Nat × RpcEndpoint) :=
  let cands := candidatesOf eps
  let thr := highestBlockOf cands - cfg.BlockTolerance
  let fc := cands.filter (fun p => thr ≤ p.2.BlockNumber)
  if fc.isEmpty then cands else fc

/-- Selection phase of `SelectBestEndpoint` (checker.go:139-218), after the
probe fan-out, parameterized by the sorting function standing for
`sort.Slice`.  Returns the new state and whether `setBestEndpoint` was
called (the Publisher write event).  The write is guarded by
`currentBestURL != bestURL` (checker.go:198); `setBestEndpoint` stores the
chosen record's reference (part_001 lines 194-198).  An empty sorted list
cannot occur (Go would panic at `finalCandidates[0]`); that branch is a
no-op here. -/
def selectBestEndpointWith
    (sortFn : List (Nat × RpcEndpoint) → List (Nat × RpcEndpoint))
    (cfg : Config) (st : GatewayState) : GatewayState × Bool :=
  let cands := candidatesOf st.Endpoints
  if cands.isEmpty then (st, false)
  else
    match sortFn (finalCandidatesOf cfg st.Endpoints) with
    | [] => (st, false)
    | best :: _ =>
      let currentBestURL := (getBestEndpoint st).URL
      if currentBestURL ≠ best.2.URL then ({ st with CurrentBest := best.1 }, true)
      else (st, false)

/-- Selection phase of `SelectBestEndpoint` with the concrete `sort.Slice`
implementation. -/
def selectBestEndpointPass (cfg : Config) (st : GatewayState) : GatewayState × Bool :=
  selectBestEndpointWith (goSortSlice lessByLatency) cfg st

/-- The Selector's final pick `best := finalCandidates[0]` (checker.go:190)
with the concrete `sort.Slice` implementation; `none` when the candidate
set is empty (the code returns before sorting, checker.go:153-163). -/
def selectorPick (cfg : Config) (st : GatewayState) : Option (Nat × RpcEndpoint) :=
  if (candidatesOf st.Endpoints).isEmpty then none
  else (goSortSlice lessByLatency (finalCandidatesOf cfg st.Endpoints)).head?

/-- Probe fan-out of `SelectBestEndpoint` (checker.go:128-137): every
endpoint record is updated by its own probe; record `k` sees entry clock
`obs k .1` and network outcome `obs k .2`. -/
def probeAll (cfg : Config) (eps : List RpcEndpoint) (obs : Nat → Int × ProbeOutcome) :
    List RpcEndpoint :=
  eps.enum.map (fun p => checkEndpointStatus cfg p.2 (obs p.1).1 (obs p.1).2)

/-! ## Refinement rendering of the specification's tip-fresh set

Claim C2 defines `highest_block` as the maximum of `block_number` over the
candidate set.  The code seeds its fold with `-1` (checker.go:140), which
differs once every candidate block is below `-1`.  The following
definitions follow the claim's words, for comparison with the code-side
`finalCandidatesOf`. -/

/-- Modelled from the spec's words: `highest_block := max(block_number)`
over the candidate set itself (meaningful on a non-empty candidate set). -/
def specHighestBlock (cands : List (Nat × RpcEndpoint)) : Int :=
  match cands with
  | [] => -1
  | c :: rest => rest.foldl (fun m p => max m p.2.BlockNumber) c.2.BlockNumber

/-- Modelled from the spec's words: candidates with
`block_number ≥ highest_block − block_tolerance`. -/
def specTipFresh (cfg : Config) (eps : List RpcEndpoint) : List (Nat × RpcEndpoint) :=
  let cands := candidatesOf eps
  cands.filter (fun p => specHighestBlock cands - cfg.BlockTolerance ≤ p.2.BlockNumber)

/-- Modelled from the spec's words: the tip-fresh set, falling back to the
full candidate set when the tip-fresh set is empty. -/
def specChosenSet (cfg : Config) (eps : List RpcEndpoint) : List (Nat × RpcEndpoint) :=
  if (specTipFresh cfg eps).isEmpty then candidatesOf eps else specTipFresh cfg eps

/-- First element of a list attaining the minimal key: the fold keeps the
incumbent on ties and replaces it only on a strict improvement, which is
exactly a stable (configuration-order) tie-break. -/
def firstMinBy (key : α → Int) : List α → Option α
  | [] => none
  | x :: xs => some (xs.foldl (fun m y => if key y < key m then y else m) x)

/-! ## Concrete fixtures for witnesses and counterexamples -/

/-- Endpoint-record builder used by the concrete fixtures. -/
def mkEndpoint (url : String) (block lat : Int) (rl : Bool) (rlUntil : Int)
    (reach : Bool) : RpcEndpoint :=
  { URL := url, BlockNumber := block, Latency := lat, IsRateLimited := rl,
    RateLimitedUntil := rlUntil, IsReachable := reach }

/-- Concrete configuration: the documented defaults (§6) with nanosecond
durations. -/
def cfg0 : Config :=
  { GatewayPort := ":8545", MetricsPort := ":9090", CheckIntervalStr := "30s",
    RequestTimeoutStr := "5s", RateLimitBackoffStr := "1m", BlockTolerance := 5,
    RpcEndpoints := ["http://a", "http://b"], Verbose := false,
    CheckInterval := 30000000000, RequestTimeout := 5000000000,
    RateLimitBackoff := 60000000000 }

/-- A record in active backoff (`RateLimitedUntil = 10`). -/
def epC8 : RpcEndpoint := mkEndpoint "http://a" 7 9 true 10 false

/-- A record whose backoff deadline is `5`. -/
def epC4a : RpcEndpoint := mkEndpoint "http://a" 7 9 true 5 false

/-- A reachable, unthrottled record. -/
def epReach : RpcEndpoint := mkEndpoint "http://a" 7 9 false 0 true

/-- A well-formed probe response carrying chain head `0x10`. -/
def respOk : EthBlockNumberResponse :=
  { Jsonrpc := "2.0", Result := "0x10", Error := none, ID := 1 }

/-- A well-formed probe response whose result is the negative decimal
string `-1`. -/
def respNeg : EthBlockNumberResponse :=
  { Jsonrpc := "2.0", Result := "-1", Error := none, ID := 1 }

/-- A well-formed probe response whose result exceeds the signed 64-bit
range (`2^64 + 5`). -/
def respBig : EthBlockNumberResponse :=
  { Jsonrpc := "2.0", Result := "0x10000000000000005", Error := none, ID := 1 }

/-- A successful HTTP 200 probe outcome with latency 11. -/
def oOk : ProbeOutcome := .httpResponse 200 11 (.jsonOk respOk)

/-- An HTTP 429 probe outcome. -/
def o429 : ProbeOutcome := .httpResponse 429 11 .readError

/-- One unreachable endpoint: the candidate set is empty. -/
def stDown : GatewayState :=
  { Endpoints := [mkEndpoint "http://a" 7 9 false 0 false], CurrentBest := 0 }

/-- One healthy endpoint which is already the current best. -/
def stOne : GatewayState :=
  { Endpoints := [mkEndpoint "http://a" 100 9 false 0 true], CurrentBest := 0 }

/-- Healthy endpoint at index 0, latency 20. -/
def epA : RpcEndpoint := mkEndpoint "http://a" 100 20 false 0 true

/-- Healthy endpoint at index 1, latency 10. -/
def epB : RpcEndpoint := mkEndpoint "http://b" 100 10 false 0 true

/-- Two healthy endpoints; the second is faster. -/
def stTwo : GatewayState := { Endpoints := [epA, epB], CurrentBest := 0 }

/-- Healthy endpoint with block number `-3` (obtainable from a probe
result string of `-3`), latency 20. -/
def epN3 : RpcEndpoint := mkEndpoint "http://a" (-3) 20 false 0 true

/-- Healthy endpoint with block number `-8`, latency 10. -/
def epN8 : RpcEndpoint := mkEndpoint "http://b" (-8) 10 false 0 true

/-- Two healthy endpoints whose blocks are all below `-1`: the code's
`-1`-seeded highest block diverges from the spec's maximum. -/
def stNeg : GatewayState := { Endpoints := [epN3, epN8], CurrentBest := 0 }

/-- Latency vector with the minimal latency 1 duplicated at configuration
indices 2 and 10. -/
def lat13 : List Int := [2, 9, 1, 5, 3, 4, 5, 3, 4, 5, 1, 6, 7]

/-- Thirteen healthy endpoints carrying `lat13` as latencies. -/
def st13 : GatewayState :=
  { Endpoints := lat13.map (fun v => mkEndpoint "u" 100 v false 0 true), CurrentBest := 0 }

/-- Three healthy endpoints with a latency tie at configuration indices 1
and 2. -/
def stTie : GatewayState :=
  { Endpoints := [mkEndpoint "http://a" 100 5 false 0 true,
                  mkEndpoint "http://b" 100 3 false 0 true,
                  mkEndpoint "http://c" 100 3 false 0 true],
    CurrentBest := 0 }

/-! ## Shared lemmas -/

/-- Go's sign-magnitude computation of `Int64` equals reduction of the low
64 bits in two's complement. -/
theorem bigIntInt64_eq_wrap (v : Int) :
    bigIntInt64 v = ((v + 2 ^ 63) % 2 ^ 64) - 2 ^ 63 := by
  unfold bigIntInt64
  dsimp only
  split <;> split <;> omega

/-- The HTTP 429 branch of the probe body: flag set, deadline pushed,
record unreachable. -/
theorem checkProbeResult_429 (cfg : Config) (e : RpcEndpoint) (now lat : Int)
    (body : BodyOutcome) :
    checkProbeResult cfg e now (ProbeOutcome.httpResponse 429 lat body)
      = { e with Latency := lat, IsRateLimited := true,
                 RateLimitedUntil := now + cfg.RateLimitBackoff,
                 IsReachable := false } := rfl

/-- Outside the HTTP 429 branch, the probe body leaves `IsRateLimited`
unchanged. -/
theorem checkProbeResult_rateLimited (cfg : Config) (e : RpcEndpoint) (now : Int)
    (o : ProbeOutcome)
    (h429 : ∀ lat body, o ≠ ProbeOutcome.httpResponse 429 lat body) :
    (checkProbeResult cfg e now o).IsRateLimited = e.IsRateLimited := by
  rcases o with _ | _ | ⟨status, lat, body⟩
  · rfl
  · rfl
  · by_cases h : status = 429
    · subst h
      exact absurd rfl (h429 lat body)
    · unfold checkProbeResult
      dsimp only
      rw [if_neg h]
      by_cases h200 : status = 200
      · subst h200
        rw [if_neg (fun hc : (200 : Nat) ≠ 200 => hc rfl)]
        cases body with
        | readError => rfl
        | jsonInvalid => rfl
        | jsonOk resp =>
          dsimp only
          by_cases herr : resp.Error.isSome = true
          · rw [if_pos herr]
          · rw [if_neg herr]
            cases hp : bigIntSetString0 resp.Result <;> simp [hp]
      · rw [if_pos h200]

/-- Outside the backoff window, `CheckEndpointStatus` is the probe body
applied to the record with the flag cleared when strictly past the
deadline. -/
theorem checkEndpointStatus_not_gated (cfg : Config) (ep : RpcEndpoint)
    (now : Int) (o : ProbeOutcome)
    (hgate : ¬ (ep.IsRateLimited = true ∧ now < ep.RateLimitedUntil)) :
    checkEndpointStatus cfg ep now o
      = checkProbeResult cfg
          (if ep.IsRateLimited ∧ ep.RateLimitedUntil < now then
            { ep with IsRateLimited := false } else ep) now o := by
  unfold checkEndpointStatus
  rw [if_neg hgate]

/-! ## Claim C8 -/

/-- C8: a probe that begins while the record is rate limited and strictly
before `RateLimitedUntil` sets `IsReachable := false` and leaves every
other field unchanged; the result does not depend on the probe outcome,
i.e. no network I/O is observed. -/
theorem checkEndpointStatus_backoff_early_return
    (cfg : Config) (ep : RpcEndpoint) (now : Int) (o : ProbeOutcome)
    (hrl : ep.IsRateLimited = true) (hlt : now < ep.RateLimitedUntil) :
    checkEndpointStatus cfg ep now o = { ep with IsReachable := false } ∧
    ∀ o2 : ProbeOutcome,
      checkEndpointStatus cfg ep now o = checkEndpointStatus cfg ep now o2 := by
  constructor
  · simp [checkEndpointStatus, hrl, hlt]
  · intro o2
    simp [checkEndpointStatus, hrl, hlt]

/-- Witness for C8: concrete early return at clock 5 with deadline 10. -/
theorem checkEndpointStatus_backoff_early_return_witness :
    (epC8.IsRateLimited = true ∧ (5 : Int) < epC8.RateLimitedUntil) ∧
    checkEndpointStatus cfg0 epC8 5 ProbeOutcome.reqError = { epC8 with IsReachable := false } ∧
    checkEndpointStatus cfg0 epC8 5 ProbeOutcome.reqError
      = checkEndpointStatus cfg0 epC8 5 ProbeOutcome.transportError :=
  ⟨⟨rfl, by decide⟩,
    (checkEndpointStatus_backoff_early_return cfg0 epC8 5 ProbeOutcome.reqError rfl
      (by decide)).1,
    (checkEndpointStatus_backoff_early_return cfg0 epC8 5 ProbeOutcome.reqError rfl
      (by decide)).2 ProbeOutcome.transportError⟩

/-! ## Claim C10 -/

/-- C10: configuration loading replaces a zero `blockTolerance` (whether
written explicitly or left absent, since `yaml.Unmarshal` leaves the zero
value) by the default 5, and leaves any other value unchanged; hence the
loaded block tolerance is never zero. -/
theorem loadConfig_blockTolerance_zero_defaults (c : Config) :
    (loadConfigDefaults c).BlockTolerance
        = (if c.BlockTolerance = 0 then 5 else c.BlockTolerance) ∧
    (loadConfigDefaults c).BlockTolerance ≠ 0 := by
  unfold loadConfigDefaults
  refine ⟨rfl, ?_⟩
  dsimp only
  split <;> simp_all

/-! ## Claim C4 -/

/-- C4 counterexample: a probe beginning exactly at `RateLimitedUntil = 5`
(so `rate_limited_until ≤ t`) with a successful response does not clear
the flag, and a probe at `t = 6 > 5` receiving HTTP 429 re-sets it; in
both cases the record exits the probe with `rate_limited = true`. -/
theorem probe_clears_rateLimited_claim_false :
    (epC4a.IsRateLimited = true ∧ epC4a.RateLimitedUntil ≤ 5 ∧
      (checkEndpointStatus cfg0 epC4a 5 oOk).IsRateLimited = true) ∧
    (epC4a.IsRateLimited = true ∧ epC4a.RateLimitedUntil ≤ 6 ∧
      (checkEndpointStatus cfg0 epC4a 6 o429).IsRateLimited = true) := by
  decide

/-- C4 (amended): if a probe begins at wall-clock `t` with
`rate_limited = true` and `rate_limited_until < t` strictly, and the probe
outcome is not an HTTP 429 response, the record exits the probe with
`rate_limited = false`.  (At `t = rate_limited_until` the flag is not
cleared, and a 429 outcome re-sets it.) -/
theorem checkEndpointStatus_clears_rateLimited_amended
    (cfg : Config) (ep : RpcEndpoint) (now : Int) (o : ProbeOutcome)
    (hrl : ep.IsRateLimited = true) (hgt : ep.RateLimitedUntil < now)
    (h429 : ∀ lat body, o ≠ ProbeOutcome.httpResponse 429 lat body) :
    (checkEndpointStatus cfg ep now o).IsRateLimited = false := by
  have hnot : ¬ (ep.IsRateLimited = true ∧ now < ep.RateLimitedUntil) := by
    rintro ⟨-, h⟩; omega
  unfold checkEndpointStatus
  rw [if_neg hnot, if_pos ⟨hrl, hgt⟩, checkProbeResult_rateLimited cfg _ now o h429]

/-- Witness for C4 (amended): concrete probe at clock 6 past deadline 5
with a successful (non-429) outcome exits unthrottled. -/
theorem checkEndpointStatus_clears_rateLimited_amended_witness :
    (epC4a.IsRateLimited = true ∧ epC4a.RateLimitedUntil < 6) ∧
    (checkEndpointStatus cfg0 epC4a 6 oOk).IsRateLimited = false :=
  ⟨⟨rfl, by decide⟩,
    checkEndpointStatus_clears_rateLimited_amended cfg0 epC4a 6 oOk rfl (by decide)
      (by intro lat body h; simp [oOk] at h)⟩

/-! ## Claim C1 -/

/-- C1 counterexample: the frontend throttle update (429 branch of
`ProxyHandler`) sets `rate_limited` but leaves `reachable` untouched, so a
reachable record exits the update with both flags true; and a prober
update beginning exactly at `RateLimitedUntil` with a successful response
also exits with `rate_limited = true` and `reachable = true`. -/
theorem rateLimited_implies_unreachable_claim_false :
    ((proxyThrottleUpdate cfg0 epReach 3).IsRateLimited = true ∧
      (proxyThrottleUpdate cfg0 epReach 3).IsReachable = true) ∧
    ((checkEndpointStatus cfg0 epC4a 5 oOk).IsRateLimited = true ∧
      (checkEndpointStatus cfg0 epC4a 5 oOk).IsReachable = true) := by
  decide

/-- C1 (amended): after a prober update that does not begin exactly at
`RateLimitedUntil` while the flag is set, `rate_limited ⇒ ¬reachable`
holds; the frontend throttle update sets `rate_limited` but leaves
`reachable` exactly as it was, so the implication holds there only if the
record was already unreachable. -/
theorem checkEndpointStatus_rateLimited_unreachable_amended :
    (∀ (cfg : Config) (ep : RpcEndpoint) (now : Int) (o : ProbeOutcome),
        ¬ (ep.IsRateLimited = true ∧ now = ep.RateLimitedUntil) →
        (checkEndpointStatus cfg ep now o).IsRateLimited = true →
        (checkEndpointStatus cfg ep now o).IsReachable = false) ∧
    (∀ (cfg : Config) (ep : RpcEndpoint) (now : Int),
        (proxyThrottleUpdate cfg ep now).IsRateLimited = true ∧
        (proxyThrottleUpdate cfg ep now).IsReachable = ep.IsReachable) := by
  constructor
  · intro cfg ep now o hne
    unfold checkEndpointStatus
    by_cases hgate : ep.IsRateLimited = true ∧ now < ep.RateLimitedUntil
    · rw [if_pos hgate]
      intro _
      rfl
    · rw [if_neg hgate]
      rcases o with _ | _ | ⟨status, lat, body⟩
      · intro _; rfl
      · intro _; rfl
      · by_cases h429 : status = 429
        · subst h429
          rw [checkProbeResult_429]
          intro _
          rfl
        · intro h
          rw [checkProbeResult_rateLimited cfg _ now _
              (by intro lat2 body2 hx; injection hx with hs _ _; exact h429 hs)] at h
          exfalso
          split at h
          · simp at h
          · rename_i hclear
            have h2 : ¬ now < ep.RateLimitedUntil := fun hx => hgate ⟨h, hx⟩
            have h3 : ¬ ep.RateLimitedUntil < now := fun hx => hclear ⟨h, hx⟩
            exact hne ⟨h, by omega⟩
  · intro cfg ep now
    exact ⟨rfl, rfl⟩

/-- Witness for C1 (amended): a concrete prober update in active backoff
exits rate limited and unreachable, and a concrete frontend update
preserves reachability. -/
theorem checkEndpointStatus_rateLimited_unreachable_amended_witness :
    (¬ (epC8.IsRateLimited = true ∧ (5 : Int) = epC8.RateLimitedUntil) ∧
      (checkEndpointStatus cfg0 epC8 5 oOk).IsRateLimited = true) ∧
    (checkEndpointStatus cfg0 epC8 5 oOk).IsReachable = false ∧
    ((proxyThrottleUpdate cfg0 epReach 3).IsRateLimited = true ∧
      (proxyThrottleUpdate cfg0 epReach 3).IsReachable = epReach.IsReachable) :=
  ⟨⟨by decide, by decide⟩,
    checkEndpointStatus_rateLimited_unreachable_amended.1 cfg0 epC8 5 oOk (by decide)
      (by decide),
    checkEndpointStatus_rateLimited_unreachable_amended.2 cfg0 epReach 3⟩

/-! ## Claim C5 -/

/-- C5 counterexample: with HTTP 200 and result string `"-1"` — which does
not parse as a non-negative integer — the probe marks the endpoint
reachable and stores `BlockNumber = -1`, because `SetString(s, 0)` accepts
a leading sign. -/
theorem reachable_requires_nonneg_claim_false :
    (checkEndpointStatus cfg0 epReach 9
        (ProbeOutcome.httpResponse 200 11 (BodyOutcome.jsonOk respNeg))).IsReachable = true ∧
    (checkEndpointStatus cfg0 epReach 9
        (ProbeOutcome.httpResponse 200 11 (BodyOutcome.jsonOk respNeg))).BlockNumber = -1 := by
  decide

/-- C5 (amended): on an HTTP 200 probe (outside an active backoff window),
an unreadable body, invalid JSON, or a present JSON-RPC `error` field sets
`reachable := false`; with a well-formed error-free response, `reachable`
is true exactly when the result string parses under Go's base
auto-detection (sign permitted, `0x`/`0b`/`0o`/leading-zero bases), so
negative values are accepted as well. -/
theorem checkEndpointStatus_reachable_iff_parse
    (cfg : Config) (ep : RpcEndpoint) (now lat : Int)
    (hgate : ¬ (ep.IsRateLimited = true ∧ now < ep.RateLimitedUntil)) :
    ((checkEndpointStatus cfg ep now
        (ProbeOutcome.httpResponse 200 lat BodyOutcome.jsonInvalid)).IsReachable = false) ∧
    ((checkEndpointStatus cfg ep now
        (ProbeOutcome.httpResponse 200 lat BodyOutcome.readError)).IsReachable = false) ∧
    (∀ resp : EthBlockNumberResponse,
      (checkEndpointStatus cfg ep now
          (ProbeOutcome.httpResponse 200 lat (BodyOutcome.jsonOk resp))).IsReachable
        = (resp.Error.isNone && (bigIntSetString0 resp.Result).isSome)) := by
  refine ⟨?_, ?_, ?_⟩
  · rw [checkEndpointStatus_not_gated _ _ _ _ hgate]
    simp [checkProbeResult]
  · rw [checkEndpointStatus_not_gated _ _ _ _ hgate]
    simp [checkProbeResult]
  intro resp
  rw [checkEndpointStatus_not_gated _ _ _ _ hgate]
  by_cases herr : resp.Error.isSome = true
  · have hnone : resp.Error.isNone = false := by
      cases h : resp.Error
      · rw [h] at herr; simp at herr
      · rfl
    simp [checkProbeResult, herr, hnone]
  · have herr2 : resp.Error.isNone = true := by
      cases h : resp.Error
      · rfl
      · rw [h] at herr; simp at herr
    cases hp : bigIntSetString0 resp.Result <;>
      simp [checkProbeResult, herr, herr2, hp]

/-- Witness for C5 (amended): concrete evaluation on the `"-1"` response
and on invalid JSON. -/
theorem checkEndpointStatus_reachable_iff_parse_witness :
    (¬ (epReach.IsRateLimited = true ∧ (9 : Int) < epReach.RateLimitedUntil)) ∧
    (checkEndpointStatus cfg0 epReach 9
        (ProbeOutcome.httpResponse 200 11 BodyOutcome.jsonInvalid)).IsReachable = false ∧
    (checkEndpointStatus cfg0 epReach 9
        (ProbeOutcome.httpResponse 200 11 (BodyOutcome.jsonOk respNeg))).IsReachable
      = (respNeg.Error.isNone && (bigIntSetString0 respNeg.Result).isSome) :=
  ⟨by decide,
    (checkEndpointStatus_reachable_iff_parse cfg0 epReach 9 11 (by decide)).1,
    (checkEndpointStatus_reachable_iff_parse cfg0 epReach 9 11 (by decide)).2.2 respNeg⟩

/-! ## Claim C9 -/

/-- C9: when a probe (outside an active backoff window) obtains HTTP 200
with an error-free response whose result parses (base auto-detected) to a
value `v` outside the signed 64-bit range, the stored `BlockNumber` is `v`
reduced to its low 64 bits interpreted as a signed 64-bit integer — the
two's-complement reduction `((v + 2^63) mod 2^64) - 2^63`, which can wrap
to a smaller or negative number — and the endpoint is marked reachable. -/
theorem checkEndpointStatus_blockNumber_wraps_int64
    (cfg : Config) (ep : RpcEndpoint) (now lat : Int)
    (resp : EthBlockNumberResponse) (v : Int)
    (hgate : ¬ (ep.IsRateLimited = true ∧ now < ep.RateLimitedUntil))
    (herr : resp.Error = none)
    (hparse : bigIntSetString0 resp.Result = some v)
    (hrange : v < -(2 ^ 63) ∨ (2 ^ 63 : Int) ≤ v) :
    (checkEndpointStatus cfg ep now
        (ProbeOutcome.httpResponse 200 lat (BodyOutcome.jsonOk resp))).BlockNumber
      = ((v + 2 ^ 63) % 2 ^ 64) - 2 ^ 63 ∧
    (checkEndpointStatus cfg ep now
        (ProbeOutcome.httpResponse 200 lat (BodyOutcome.jsonOk resp))).IsReachable = true := by
  rw [checkEndpointStatus_not_gated _ _ _ _ hgate]
  simp [checkProbeResult, herr, hparse, bigIntInt64_eq_wrap]

/-- Witness for C9: result string `0x10000000000000005` (value `2^64 + 5`)
wraps to a stored block number of `5` on a reachable record. -/
theorem checkEndpointStatus_blockNumber_wraps_int64_witness :
    (¬ (epReach.IsRateLimited = true ∧ (9 : Int) < epReach.RateLimitedUntil) ∧
      respBig.Error = none ∧ bigIntSetString0 respBig.Result = some (2 ^ 64 + 5) ∧
      ((2 : Int) ^ 63 ≤ 2 ^ 64 + 5)) ∧
    (checkEndpointStatus cfg0 epReach 9
        (ProbeOutcome.httpResponse 200 11 (BodyOutcome.jsonOk respBig))).BlockNumber
      = (((2 ^ 64 + 5) + 2 ^ 63) % 2 ^ 64) - 2 ^ 63 ∧
    (checkEndpointStatus cfg0 epReach 9
        (ProbeOutcome.httpResponse 200 11 (BodyOutcome.jsonOk respBig))).IsReachable = true :=
  ⟨⟨by decide, rfl, by decide, by decide⟩,
    checkEndpointStatus_blockNumber_wraps_int64 cfg0 epReach 9 11 respBig (2 ^ 64 + 5)
      (by decide) rfl (by decide) (Or.inr (by decide))⟩

/-! ## Claim C7 -/

/-- C7: a Selector pass that finds the candidate set empty leaves the
gateway state — in particular the Publisher slot `CurrentBest` — exactly
as it was, and performs no write. -/
theorem selectBestEndpoint_empty_candidates_keeps_publisher
    (cfg : Config) (st : GatewayState)
    (h : candidatesOf st.Endpoints = []) :
    selectBestEndpointPass cfg st = (st, false) := by
  unfold selectBestEndpointPass selectBestEndpointWith
  simp [h]

/-- Witness for C7: one unreachable endpoint, empty candidate set, state
unchanged. -/
theorem selectBestEndpoint_empty_candidates_keeps_publisher_witness :
    candidatesOf stDown.Endpoints = [] ∧
    selectBestEndpointPass cfg0 stDown = (stDown, false) :=
  ⟨by decide,
    selectBestEndpoint_empty_candidates_keeps_publisher cfg0 stDown (by decide)⟩

/-! ## Claim C6 -/

/-- C6 counterexample: a pass with a non-empty candidate set whose chosen
endpoint equals the current best does not call `setBestEndpoint` — the
write event is absent, so the Publisher write is conditional rather than
unconditional. -/
theorem publisher_write_unconditional_claim_false :
    (candidatesOf stOne.Endpoints).isEmpty = false ∧
    (selectBestEndpointPass cfg0 stOne).2 = false := by
  decide

/-- C6 (amended): at the end of a Selector pass with a non-empty candidate
set, the Publisher slot is written exactly when the chosen record's URL
differs from the current best's URL; on reaffirmation (equal URLs) no
write occurs, the slot simply keeps its previous value. -/
theorem selectBestEndpoint_write_iff_url_differs
    (cfg : Config) (st : GatewayState) (best : Nat × RpcEndpoint)
    (rest : List (Nat × RpcEndpoint))
    (hne : (candidatesOf st.Endpoints).isEmpty = false)
    (hsort : goSortSlice lessByLatency (finalCandidatesOf cfg st.Endpoints) = best :: rest) :
    ((selectBestEndpointPass cfg st).2 = true ↔ (getBestEndpoint st).URL ≠ best.2.URL) ∧
    ((selectBestEndpointPass cfg st).1
        = if (getBestEndpoint st).URL ≠ best.2.URL then { st with CurrentBest := best.1 }
          else st) := by
  unfold selectBestEndpointPass selectBestEndpointWith
  rw [hsort]
  simp only [hne, Bool.false_eq_true, if_false, ite_false]
  by_cases h : (getBestEndpoint st).URL = best.2.URL
  · simp [h]
  · simp [h]

/-- Witness for C6 (amended): two healthy endpoints, the faster one is not
the current best, so the write occurs and publishes index 1. -/
theorem selectBestEndpoint_write_iff_url_differs_witness :
    ((candidatesOf stTwo.Endpoints).isEmpty = false ∧
      goSortSlice lessByLatency (finalCandidatesOf cfg0 stTwo.Endpoints)
        = [(1, epB), (0, epA)]) ∧
    ((selectBestEndpointPass cfg0 stTwo).2 = true ↔ (getBestEndpoint stTwo).URL ≠ epB.URL) ∧
    ((selectBestEndpointPass cfg0 stTwo).1
        = if (getBestEndpoint stTwo).URL ≠ epB.URL then { stTwo with CurrentBest := 1 }
          else stTwo) :=
  ⟨⟨by decide, by decide⟩,
    selectBestEndpoint_write_iff_url_differs cfg0 stTwo (1, epB) [(0, epA)]
      (by decide) (by decide)⟩

/-! ## Lemmas about the sort embedding

The tie-break claim C3 needs the behavior of Go's insertion sort (the
`sort.Slice` path taken for ranges of at most 12 elements): the element
left at position 0 is the first minimum of the input.  The lemmas below
work over an arbitrary integer key, instantiated with the latency. -/

/-- Reading through `lget` is reading through `getElem?`. -/
theorem lget_eq_getElem? [Inhabited α] (l : List α) (i : Nat) :
    lget l i = (l[i]?).getD default := by
  simp [lget, List.getD_eq_getElem?_getD]

/-- Swapping preserves length. -/
theorem length_lswap [Inhabited α] (l : List α) (i j : Nat) :
    (lswap l i j).length = l.length := by
  simp [lswap]

/-- Reading a swapped list away from both swap positions. -/
theorem lget_lswap_ne [Inhabited α] (l : List α) (i j k : Nat)
    (hki : k ≠ i) (hkj : k ≠ j) :
    lget (lswap l i j) k = lget l k := by
  simp only [lswap, lget_eq_getElem?]
  rw [List.getElem?_set_ne (fun h => hkj h.symm), List.getElem?_set_ne (fun h => hki h.symm)]

/-- Reading a swapped list at the second swap position. -/
theorem lget_lswap_snd [Inhabited α] (l : List α) (i j : Nat) (hj : j < l.length) :
    lget (lswap l i j) j = lget l i := by
  simp only [lswap, lget_eq_getElem?]
  rw [List.getElem?_set_eq_of_lt]
  · simp [lget_eq_getElem?]
  · simpa using hj

/-- Reading a swapped list at the first swap position. -/
theorem lget_lswap_fst [Inhabited α] (l : List α) (i j : Nat)
    (hi : i < l.length) :
    lget (lswap l i j) i = lget l j := by
  by_cases h : i = j
  · subst h
    exact lget_lswap_snd l i i hi
  · simp only [lswap, lget_eq_getElem?]
    rw [List.getElem?_set_ne (fun hh => h hh.symm), List.getElem?_set_eq_of_lt _ hi]
    simp [lget_eq_getElem?]

/-- The bubbling loop preserves length. -/
theorem insertionSortInner_length [Inhabited α] (less : α → α → Bool) (a : Nat) :
    ∀ (j : Nat) (data : List α),
      (insertionSortInner less a data j).length = data.length := by
  intro j
  induction j with
  | zero => intro data; rfl
  | succ j ih =>
    intro data
    unfold insertionSortInner
    split
    · rw [ih, length_lswap]
    · rfl

/-- The bubbling loop at position `j` does not touch positions above `j`. -/
theorem insertionSortInner_lget_high [Inhabited α] (less : α → α → Bool) (a : Nat) :
    ∀ (j : Nat) (data : List α) (k : Nat), j < k →
      lget (insertionSortInner less a data j) k = lget data k := by
  intro j
  induction j with
  | zero => intro data k _; rfl
  | succ j ih =>
    intro data k hk
    unfold insertionSortInner
    split
    · rw [ih (lswap data (j + 1) j) k (by omega)]
      exact lget_lswap_ne data (j + 1) j k (by omega) (by omega)
    · rfl

/-- Positions up to `j` of the bubbled list hold elements drawn from
positions up to `j` of the input. -/
theorem insertionSortInner_lget_mem [Inhabited α] (less : α → α → Bool) :
    ∀ (j : Nat) (data : List α), j < data.length → ∀ (k : Nat), k ≤ j →
      ∃ m, m ≤ j ∧ lget (insertionSortInner less 0 data j) k = lget data m := by
  intro j
  induction j with
  | zero =>
    intro data _ k hk
    exact ⟨k, hk, rfl⟩
  | succ j ih =>
    intro data hj k hk
    unfold insertionSortInner
    split
    · by_cases hkj : k ≤ j
      · obtain ⟨m, hm, heq⟩ := ih (lswap data (j + 1) j) (by rw [length_lswap]; omega) k hkj
        by_cases hmj : m = j
        · refine ⟨j + 1, le_refl _, ?_⟩
          rw [heq, hmj, lget_lswap_snd data (j + 1) j (by omega)]
        · refine ⟨m, by omega, ?_⟩
          rw [heq, lget_lswap_ne data (j + 1) j m (by omega) hmj]
      · have hkj1 : k = j + 1 := by omega
        subst hkj1
        rw [insertionSortInner_lget_high less 0 j _ (j + 1) (by omega),
          lget_lswap_fst data (j + 1) j hj]
        exact ⟨j, by omega, rfl⟩
    · exact ⟨k, hk, rfl⟩

/-- Head of the bubbled list: the bubbling element reaches position 0
exactly when it is strictly below every element before it; otherwise the
head is unchanged. -/
theorem insertionSortInner_lget_zero [Inhabited α] (less : α → α → Bool) :
    ∀ (j : Nat) (data : List α), j < data.length →
      lget (insertionSortInner less 0 data j) 0
        = if (∀ k, k < j → less (lget data j) (lget data k) = true)
          then lget data j else lget data 0 := by
  intro j
  induction j with
  | zero =>
    intro data _
    rw [if_pos (fun k hk => absurd hk (Nat.not_lt_zero k))]
    rfl
  | succ j ih =>
    intro data hj
    unfold insertionSortInner
    by_cases hc : less (lget data (j + 1)) (lget data j) = true
    · rw [if_pos ⟨Nat.succ_pos j, hc⟩]
      have hlen1 : j < (lswap data (j + 1) j).length := by rw [length_lswap]; omega
      rw [ih (lswap data (j + 1) j) hlen1]
      have hsnd : lget (lswap data (j + 1) j) j = lget data (j + 1) :=
        lget_lswap_snd data (j + 1) j (by omega)
      have hlow : ∀ k, k < j → lget (lswap data (j + 1) j) k = lget data k := by
        intro k hk
        exact lget_lswap_ne data (j + 1) j k (by omega) (by omega)
      have hcondiff :
          (∀ k, k < j → less (lget (lswap data (j + 1) j) j)
              (lget (lswap data (j + 1) j) k) = true)
            ↔ (∀ k, k < j + 1 → less (lget data (j + 1)) (lget data k) = true) := by
        constructor
        · intro h k hk
          by_cases hkj : k = j
          · subst hkj; exact hc
          · have := h k (by omega)
            rwa [hsnd, hlow k (by omega)] at this
        · intro h k hk
          rw [hsnd, hlow k hk]
          exact h k (by omega)
      by_cases hcond : ∀ k, k < j + 1 → less (lget data (j + 1)) (lget data k) = true
      · rw [if_pos (hcondiff.mpr hcond), if_pos hcond, hsnd]
      · rw [if_neg (fun h => hcond (hcondiff.mp h)), if_neg hcond]
        have hj0 : j ≠ 0 := by
          intro h0
          apply hcond
          intro k hk
          have hk0 : k = 0 := by omega
          rw [hk0, ← h0]
          exact hc
        exact lget_lswap_ne data (j + 1) j 0 (by omega) (by omega)
    · rw [if_neg (fun h => hc h.2),
        if_neg (fun h : (∀ k, k < j + 1 →
            less (lget data (j + 1)) (lget data k) = true) => hc (h j (by omega)))]

/-- Properties of the first-minimum fold: the result is the seed or a
member of the list; it equals the seed or has a strictly smaller key; and
its key is minimal. -/
theorem firstMinBy_foldl_prop (key : α → Int) :
    ∀ (l : List α) (x : α),
      (l.foldl (fun m y => if key y < key m then y else m) x = x ∨
        l.foldl (fun m y => if key y < key m then y else m) x ∈ l) ∧
      (l.foldl (fun m y => if key y < key m then y else m) x = x ∨
        key (l.foldl (fun m y => if key y < key m then y else m) x) < key x) ∧
      (∀ y ∈ l, key (l.foldl (fun m y => if key y < key m then y else m) x) ≤ key y) := by
  intro l
  induction l with
  | nil =>
    intro x
    exact ⟨Or.inl rfl, Or.inl rfl, by intro y hy; cases hy⟩
  | cons z zs ih =>
    intro x
    obtain ⟨hmem, hlt, hmin⟩ := ih (if key z < key x then z else x)
    have hfold : (z :: zs).foldl (fun m y => if key y < key m then y else m) x
        = zs.foldl (fun m y => if key y < key m then y else m)
            (if key z < key x then z else x) := rfl
    rw [hfold]
    by_cases hzx : key z < key x
    · rw [if_pos hzx] at hmem hlt hmin ⊢
      refine ⟨?_, ?_, ?_⟩
      · rcases hmem with h | h
        · exact Or.inr (by rw [h]; exact List.mem_cons_self z zs)
        · exact Or.inr (List.mem_cons_of_mem z h)
      · rcases hlt with h | h
        · exact Or.inr (by rw [h]; exact hzx)
        · exact Or.inr (lt_trans h hzx)
      · intro y hy
        rcases List.mem_cons.mp hy with h | h
        · subst h
          rcases hlt with h2 | h2
          · rw [h2]
          · exact le_of_lt h2
        · exact hmin y h
    · rw [if_neg hzx] at hmem hlt hmin ⊢
      have hxz : key x ≤ key z := Int.not_lt.mp hzx
      refine ⟨?_, ?_, ?_⟩
      · rcases hmem with h | h
        · exact Or.inl h
        · exact Or.inr (List.mem_cons_of_mem z h)
      · exact hlt
      · intro y hy
        rcases List.mem_cons.mp hy with h | h
        · subst h
          rcases hlt with h2 | h2
          · rw [h2]; exact hxz
          · exact le_of_lt (lt_of_lt_of_le h2 hxz)
        · exact hmin y h

/-- On a list whose `idx` values strictly increase, the first-minimum fold
returns the entry with the least `idx` among those attaining the minimal
key. -/
theorem firstMinBy_tie_le (key : α → Int) (idx : α → Nat) :
    ∀ (l : List α) (x : α),
      List.Pairwise (fun p q => idx p < idx q) (x :: l) →
      ∀ y ∈ x :: l,
        key y = key (l.foldl (fun m y => if key y < key m then y else m) x) →
        idx (l.foldl (fun m y => if key y < key m then y else m) x) ≤ idx y := by
  intro l
  induction l with
  | nil =>
    intro x _ y hy hkey
    have hx : y = x := by simpa using hy
    subst hx
    exact le_refl _
  | cons z zs ih =>
    intro x hpw y hy hkey
    have hfold : (z :: zs).foldl (fun m y => if key y < key m then y else m) x
        = zs.foldl (fun m y => if key y < key m then y else m)
            (if key z < key x then z else x) := rfl
    rw [hfold] at hkey ⊢
    obtain ⟨hx1, hpwtail⟩ := List.pairwise_cons.mp hpw
    obtain ⟨hz1, hpwzs⟩ := List.pairwise_cons.mp hpwtail
    have hpw1 : List.Pairwise (fun p q => idx p < idx q)
        ((if key z < key x then z else x) :: zs) := by
      rw [List.pairwise_cons]
      refine ⟨?_, hpwzs⟩
      intro w hw
      by_cases hzx : key z < key x
      · rw [if_pos hzx]; exact hz1 w hw
      · rw [if_neg hzx]; exact hx1 w (List.mem_cons_of_mem z hw)
    obtain ⟨-, hlt, -⟩ :=
      firstMinBy_foldl_prop key zs (if key z < key x then z else x)
    rcases List.mem_cons.mp hy with hyx | hy2
    · rw [hyx] at hkey ⊢
      by_cases hzx : key z < key x
      · -- the seed became z; x cannot attain the minimum since z beats it
        exfalso
        rw [if_pos hzx] at hlt hkey
        rcases hlt with h2 | h2
        · rw [h2] at hkey
          omega
        · omega
      · rw [if_neg hzx] at hkey hpw1 ⊢
        exact ih x hpw1 x (List.mem_cons_self x zs) hkey
    · rcases List.mem_cons.mp hy2 with hyz | hyzs
      · rw [hyz] at hkey ⊢
        by_cases hzx : key z < key x
        · rw [if_pos hzx] at hkey hpw1 ⊢
          exact ih z hpw1 z (List.mem_cons_self z zs) hkey
        · -- seed stayed x; if z ties the minimum, the fold result is x itself
          rw [if_neg hzx] at hkey hlt ⊢
          have hxz : key x ≤ key z := Int.not_lt.mp hzx
          rcases hlt with h2 | h2
          · rw [h2]
            exact le_of_lt (hx1 z (List.mem_cons_self z zs))
          · exfalso
            omega
      · exact ih (if key z < key x then z else x) hpw1 y
          (List.mem_cons_of_mem _ hyzs) hkey

/-- Taking one more element appends the element read through `lget`. -/
theorem take_succ_lget [Inhabited α] (l : List α) (i : Nat) (h : i < l.length) :
    l.take (i + 1) = l.take i ++ [lget l i] := by
  rw [List.take_succ]
  rw [List.getElem?_eq_getElem h]
  unfold lget
  rw [List.getD_eq_getElem l default h]
  simp

/-- Appending one element to a non-trivial first minimum folds one more
step. -/
theorem firstMinBy_append_singleton (key : α → Int) (l : List α) (y m : α)
    (h : firstMinBy key l = some m) :
    firstMinBy key (l ++ [y]) = some (if key y < key m then y else m) := by
  cases l with
  | nil => cases h
  | cons x xs =>
    have hm : xs.foldl (fun m y => if key y < key m then y else m) x = m := by
      simpa [firstMinBy] using h
    simp only [firstMinBy, List.cons_append, List.foldl_append, hm, List.foldl_cons,
      List.foldl_nil]

/-- The outer insertion-sort loop preserves length. -/
theorem insertionSortOuter_length [Inhabited α] (less : α → α → Bool) (a : Nat) :
    ∀ (steps : Nat) (data : List α) (i : Nat),
      (insertionSortOuter less a data i steps).length = data.length := by
  intro steps
  induction steps with
  | zero => intro data i; rfl
  | succ steps ih =>
    intro data i
    unfold insertionSortOuter
    rw [ih, insertionSortInner_length]

/-- Invariant of the outer insertion-sort loop: starting from a state
whose prefix before `i` is untouched beyond holding the first minimum of
the original prefix at position 0 (with minimal key among the prefix), the
loop ends with the first minimum of the whole list at position 0. -/
theorem insertionSortOuter_head_firstMin [Inhabited α] (key : α → Int) :
    ∀ (steps : Nat) (orig data : List α) (i : Nat),
      i + steps = orig.length → 1 ≤ i →
      data.length = orig.length →
      (∀ k, i ≤ k → lget data k = lget orig k) →
      (∀ k, k < i → ¬ (key (lget data k) < key (lget data 0))) →
      firstMinBy key (orig.take i) = some (lget data 0) →
      firstMinBy key orig
        = some (lget
            (insertionSortOuter (fun x y => decide (key x < key y)) 0 data i steps) 0) := by
  intro steps
  induction steps with
  | zero =>
    intro orig data i hsum h1 hlen hsuf hmin hfm
    have hi : i = orig.length := by omega
    rw [hi, List.take_length] at hfm
    exact hfm
  | succ steps ih =>
    intro orig data i hsum h1 hlen hsuf hmin hfm
    have hilen : i < orig.length := by omega
    have hidata : i < data.length := by omega
    have hstep : insertionSortOuter (fun x y => decide (key x < key y)) 0 data i (steps + 1)
        = insertionSortOuter (fun x y => decide (key x < key y)) 0
            (insertionSortInner (fun x y => decide (key x < key y)) 0 data i) (i + 1)
            steps := rfl
    set less := fun x y : α => decide (key x < key y) with hless
    set data1 := insertionSortInner less 0 data i with hdata1
    have hx : lget data i = lget orig i := hsuf i (le_refl i)
    have hhead : lget data1 0
        = if key (lget data i) < key (lget data 0) then lget data i else lget data 0 := by
      rw [hdata1, insertionSortInner_lget_zero less i data hidata]
      by_cases hcond : key (lget data i) < key (lget data 0)
      · rw [if_pos, if_pos hcond]
        intro k hk
        have hhk := Int.not_lt.mp (hmin k hk)
        exact decide_eq_true (lt_of_lt_of_le hcond hhk)
      · rw [if_neg, if_neg hcond]
        intro hall
        exact hcond (of_decide_eq_true (hall 0 (by omega)))
    have hheadle : key (lget data1 0) ≤ key (lget data 0) := by
      rw [hhead]
      by_cases hcond : key (lget data i) < key (lget data 0)
      · rw [if_pos hcond]; exact le_of_lt hcond
      · rw [if_neg hcond]
    have hheadlex : key (lget data1 0) ≤ key (lget data i) := by
      rw [hhead]
      by_cases hcond : key (lget data i) < key (lget data 0)
      · rw [if_pos hcond]
      · rw [if_neg hcond]; exact Int.not_lt.mp hcond
    rw [hstep]
    apply ih orig data1 (i + 1) (by omega) (by omega)
    · rw [hdata1, insertionSortInner_length, hlen]
    · intro k hk
      rw [hdata1, insertionSortInner_lget_high less 0 i data k (by omega)]
      exact hsuf k (by omega)
    · intro k hk
      obtain ⟨m, hm, heq⟩ :=
        insertionSortInner_lget_mem less i data hidata k (by omega)
      rw [← hdata1] at heq
      rw [heq]
      by_cases hmi : m = i
      · rw [hmi]
        exact Int.not_lt.mpr hheadlex
      · have hmlt : m < i := by omega
        have := Int.not_lt.mp (hmin m hmlt)
        exact Int.not_lt.mpr (le_trans hheadle this)
    · rw [take_succ_lget orig i hilen,
        firstMinBy_append_singleton key (orig.take i) (lget orig i) (lget data 0) hfm,
        ← hx, ← hhead]

/-- Go's insertion sort leaves the first minimum of the input at position
0: the inner loop moves an element past its predecessor only on a strict
comparison, so ties keep the earlier element in front. -/
theorem insertionSort_head_firstMin [Inhabited α] (key : α → Int)
    (l : List α) (hne : l ≠ []) :
    firstMinBy key l
      = some (lget (insertionSort (fun x y => decide (key x < key y)) 0 l.length l) 0) := by
  have hlen : 1 ≤ l.length := by
    cases l with
    | nil => exact absurd rfl hne
    | cons x xs => simp
  have hfm1 : firstMinBy key (l.take 1) = some (lget l 0) := by
    cases l with
    | nil => exact absurd rfl hne
    | cons x xs => simp [firstMinBy, lget]
  have := insertionSortOuter_head_firstMin key (l.length - 1) l l 1 (by omega)
    (le_refl 1) rfl (fun k _ => rfl)
    (fun k hk => by
      have hk0 : k = 0 := by omega
      rw [hk0]
      exact lt_irrefl _)
    hfm1
  exact this

/-- For at most 12 elements, `sort.Slice` is exactly Go's insertion sort
(the `length <= maxInsertion` branch of `pdqsort`). -/
theorem goSortSlice_le12 [Inhabited α] (less : α → α → Bool) (l : List α)
    (hlen : l.length ≤ 12) :
    goSortSlice less l = insertionSort less 0 l.length l := by
  show pdqsortGo less (2 * l.length + 3 + 1) l 0 l.length (bitsLen l.length) true true
      = insertionSort less 0 l.length l
  rw [pdqsortGo]
  rw [if_pos (by simpa using hlen)]

/-- Members of the candidate list are enumerated endpoints: the index
field reads back the record. -/
theorem mem_candidatesOf_getElem? (eps : List RpcEndpoint) (p : Nat × RpcEndpoint)
    (h : p ∈ candidatesOf eps) : eps[p.1]? = some p.2 := by
  unfold candidatesOf at h
  exact List.mem_enum_iff_getElem?.mp (List.mem_of_mem_filter h)

/-- The tip-freshness filter and its fallback select among the
candidates. -/
theorem finalCandidatesOf_subset (cfg : Config) (eps : List RpcEndpoint) :
    ∀ p ∈ finalCandidatesOf cfg eps, p ∈ candidatesOf eps := by
  intro p hp
  unfold finalCandidatesOf at hp
  dsimp only at hp
  split at hp
  · exact hp
  · exact List.mem_of_mem_filter hp

/-- With a non-empty candidate set the chosen set is non-empty. -/
theorem finalCandidatesOf_ne_nil (cfg : Config) (eps : List RpcEndpoint)
    (h : (candidatesOf eps).isEmpty = false) :
    finalCandidatesOf cfg eps ≠ [] := by
  unfold finalCandidatesOf
  dsimp only
  intro hc
  split at hc
  · rw [hc] at h
    simp at h
  · rename_i hemp
    apply hemp
    rw [hc]
    rfl

/-- Enumeration carries strictly increasing indices. -/
theorem enum_pairwise_fst (l : List α) :
    List.Pairwise (fun p q : Nat × α => p.1 < q.1) l.enum := by
  rw [List.pairwise_iff_getElem]
  intro i j hi hj hij
  rw [List.getElem_enum, List.getElem_enum]
  simpa using hij

/-- Candidate indices strictly increase along the list (configuration
order). -/
theorem candidatesOf_pairwise_fst (eps : List RpcEndpoint) :
    List.Pairwise (fun p q : Nat × RpcEndpoint => p.1 < q.1) (candidatesOf eps) :=
  List.Pairwise.sublist (List.filter_sublist eps.enum) (enum_pairwise_fst eps)

/-- Chosen-set indices strictly increase along the list. -/
theorem finalCandidatesOf_pairwise_fst (cfg : Config) (eps : List RpcEndpoint) :
    List.Pairwise (fun p q : Nat × RpcEndpoint => p.1 < q.1)
      (finalCandidatesOf cfg eps) := by
  unfold finalCandidatesOf
  dsimp only
  split
  · exact candidatesOf_pairwise_fst eps
  · exact List.Pairwise.sublist (List.filter_sublist _) (candidatesOf_pairwise_fst eps)

/-! ## Claim C3 -/

/-- C3 (amended): when the chosen set has at most 12 endpoints — the
regime in which `sort.Slice` degrades to a stable insertion sort — the
Selector's final pick is the first minimum-latency entry of the chosen set
in configuration order: it has minimal latency, and on latency ties it
carries the least configuration index.  (For larger chosen sets the
pattern-defeating quicksort is not stable and a later-configured endpoint
can win, see the counterexample.) -/
theorem selectorPick_tieBreak_configOrder_le12
    (cfg : Config) (st : GatewayState)
    (hne : (candidatesOf st.Endpoints).isEmpty = false)
    (hlen : (finalCandidatesOf cfg st.Endpoints).length ≤ 12) :
    selectorPick cfg st
        = firstMinBy (fun p => p.2.Latency) (finalCandidatesOf cfg st.Endpoints) ∧
    ∀ b, selectorPick cfg st = some b →
      b ∈ finalCandidatesOf cfg st.Endpoints ∧
      (∀ q ∈ finalCandidatesOf cfg st.Endpoints, b.2.Latency ≤ q.2.Latency) ∧
      (∀ q ∈ finalCandidatesOf cfg st.Endpoints,
        q.2.Latency = b.2.Latency → b.1 ≤ q.1) := by
  set key : Nat × RpcEndpoint → Int := fun p => p.2.Latency with hkey
  set fc := finalCandidatesOf cfg st.Endpoints with hfc
  have hfcne : fc ≠ [] := finalCandidatesOf_ne_nil cfg st.Endpoints hne
  have hsorted : goSortSlice lessByLatency fc
      = insertionSort (fun x y => decide (key x < key y)) 0 fc.length fc :=
    goSortSlice_le12 lessByLatency fc hlen
  have hfm : firstMinBy key fc
      = some (lget (insertionSort (fun x y => decide (key x < key y)) 0 fc.length fc) 0) :=
    insertionSort_head_firstMin key fc hfcne
  have hlen2 : (insertionSort (fun x y => decide (key x < key y)) 0 fc.length fc).length
      = fc.length := by
    unfold insertionSort
    rw [insertionSortOuter_length]
  have hpick : selectorPick cfg st
      = (insertionSort (fun x y => decide (key x < key y)) 0 fc.length fc).head? := by
    unfold selectorPick
    rw [if_neg (by rw [hne]; simp)]
    rw [← hfc, hsorted]
  have hmain : selectorPick cfg st = firstMinBy key fc := by
    rw [hpick, hfm]
    cases hs : insertionSort (fun x y => decide (key x < key y)) 0 fc.length fc with
    | nil =>
      rw [hs] at hlen2
      have : fc = [] := List.length_eq_zero.mp hlen2.symm
      exact absurd this hfcne
    | cons b t => simp [lget]
  refine ⟨hmain, ?_⟩
  intro b hb
  rw [hmain] at hb
  cases hfc2 : fc with
  | nil => exact absurd hfc2 hfcne
  | cons x xs =>
    rw [hfc2] at hb
    have hbfold : xs.foldl (fun m y => if key y < key m then y else m) x = b := by
      simpa [firstMinBy] using hb
    obtain ⟨hmem, hlt, hmin⟩ := firstMinBy_foldl_prop key xs x
    rw [hbfold] at hmem hlt hmin
    have hpw : List.Pairwise (fun p q : Nat × RpcEndpoint => p.1 < q.1) (x :: xs) := by
      rw [← hfc2]
      exact finalCandidatesOf_pairwise_fst cfg st.Endpoints
    have htie := firstMinBy_tie_le key Prod.fst xs x hpw
    refine ⟨?_, ?_, ?_⟩
    · rcases hmem with h | h
      · rw [h]
        exact List.mem_cons_self x xs
      · exact List.mem_cons_of_mem x h
    · intro q hq
      rcases List.mem_cons.mp hq with h | h
      · rw [h]
        rcases hlt with h2 | h2
        · rw [h2]
        · exact le_of_lt h2
      · exact hmin q h
    · intro q hq hqlat
      have := htie q hq (by rw [hbfold]; exact hqlat)
      rw [hbfold] at this
      exact this

/-- Witness for C3 (amended): on three candidates with a tie, the pick is
the first minimum — configuration index 1, not 2. -/
theorem selectorPick_tieBreak_configOrder_le12_witness :
    ((candidatesOf stTie.Endpoints).isEmpty = false ∧
      (finalCandidatesOf cfg0 stTie.Endpoints).length ≤ 12) ∧
    selectorPick cfg0 stTie
      = firstMinBy (fun p => p.2.Latency) (finalCandidatesOf cfg0 stTie.Endpoints) ∧
    (selectorPick cfg0 stTie).map Prod.fst = some 1 :=
  ⟨⟨by decide, by decide⟩,
    (selectorPick_tieBreak_configOrder_le12 cfg0 stTie (by decide) (by decide)).1,
    by decide⟩

/-- C3 counterexample: thirteen candidates (beyond the insertion-sort
regime of `sort.Slice`) with the minimal latency 1 at configuration
indices 2 and 10; the pattern-defeating quicksort moves index 10 to the
front, so the later-configured endpoint wins the tie and the claimed
stable configuration-order tie-break fails. -/
theorem selector_tieBreak_configOrder_claim_false :
    ((selectorPick cfg0 st13).map Prod.fst = some 10) ∧
    (2, mkEndpoint "u" 100 1 false 0 true) ∈ finalCandidatesOf cfg0 st13.Endpoints ∧
    (10, mkEndpoint "u" 100 1 false 0 true) ∈ finalCandidatesOf cfg0 st13.Endpoints ∧
    (∀ q ∈ finalCandidatesOf cfg0 st13.Endpoints, 1 ≤ q.2.Latency) ∧
    (2 : Nat) < 10 := by
  decide

/-! ## Claim C2 -/

/-- C2 (amended): after any Selector pass that observes a non-empty
candidate set, the Publisher refers to an endpoint of the chosen set —
tip-fresh candidates computed against the code's `-1`-seeded highest
block, falling back to the full candidate set when that filter is empty —
whose latency is minimal within that set.  Quantified over any sorting
function satisfying the documented `sort.Slice` contract (a permutation,
sorted under the latency less-function); URLs are assumed pairwise
distinct (the spec's data model: one record per configured upstream URL)
and the current-best reference in range. -/
theorem selectBestEndpoint_publishes_min_latency_tipFresh
    (cfg : Config) (st : GatewayState)
    (sortFn : List (Nat × RpcEndpoint) → List (Nat × RpcEndpoint))
    (hnodup : (st.Endpoints.map RpcEndpoint.URL).Nodup)
    (hcb : st.CurrentBest < st.Endpoints.length)
    (hne : (candidatesOf st.Endpoints).isEmpty = false)
    (hperm : (sortFn (finalCandidatesOf cfg st.Endpoints)).Perm
        (finalCandidatesOf cfg st.Endpoints))
    (hsorted : List.Pairwise (fun p q => lessByLatency q p = false)
        (sortFn (finalCandidatesOf cfg st.Endpoints))) :
    ((selectBestEndpointWith sortFn cfg st).1.Endpoints = st.Endpoints) ∧
    ((selectBestEndpointWith sortFn cfg st).1.CurrentBest,
        lget st.Endpoints (selectBestEndpointWith sortFn cfg st).1.CurrentBest)
      ∈ finalCandidatesOf cfg st.Endpoints ∧
    (∀ q ∈ finalCandidatesOf cfg st.Endpoints,
      (lget st.Endpoints (selectBestEndpointWith sortFn cfg st).1.CurrentBest).Latency
        ≤ q.2.Latency) := by
  set fc := finalCandidatesOf cfg st.Endpoints with hfc
  have hne2 : ¬ ((candidatesOf st.Endpoints).isEmpty = true) := by
    rw [hne]
    simp
  cases hs : sortFn fc with
  | nil =>
    rw [hs] at hperm
    have hfcnil : fc = [] := hperm.symm.eq_nil
    exact absurd hfcnil (finalCandidatesOf_ne_nil cfg st.Endpoints hne)
  | cons best rest =>
    rw [hs] at hperm hsorted
    have hbest_mem : best ∈ fc := hperm.subset (List.mem_cons_self best rest)
    have hbest_get : st.Endpoints[best.1]? = some best.2 :=
      mem_candidatesOf_getElem? st.Endpoints best
        (finalCandidatesOf_subset cfg st.Endpoints best hbest_mem)
    have hbest_lget : lget st.Endpoints best.1 = best.2 := by
      rw [lget_eq_getElem?, hbest_get]
      rfl
    have hmin : ∀ q ∈ fc, best.2.Latency ≤ q.2.Latency := by
      intro q hq
      have hq2 : q ∈ best :: rest := hperm.mem_iff.mpr hq
      rcases List.mem_cons.mp hq2 with h | h
      · rw [h]
      · have hrel := (List.pairwise_cons.mp hsorted).1 q h
        unfold lessByLatency at hrel
        exact Int.not_lt.mp (by simpa using hrel)
    have hval : selectBestEndpointWith sortFn cfg st
        = if (getBestEndpoint st).URL ≠ best.2.URL
          then ({ st with CurrentBest := best.1 }, true) else (st, false) := by
      unfold selectBestEndpointWith
      rw [← hfc, hs, if_neg hne2]
    by_cases hurl : (getBestEndpoint st).URL = best.2.URL
    · rw [hval, if_neg (not_not_intro hurl)]
      dsimp only
      have hidx : st.CurrentBest = best.1 := by
        have hmap_cb : (st.Endpoints.map RpcEndpoint.URL)[st.CurrentBest]?
            = some ((getBestEndpoint st).URL) := by
          rw [List.getElem?_map, List.getElem?_eq_getElem hcb]
          unfold getBestEndpoint
          rw [lget_eq_getElem?, List.getElem?_eq_getElem hcb]
          rfl
        have hmap_best : (st.Endpoints.map RpcEndpoint.URL)[best.1]?
            = some (best.2.URL) := by
          rw [List.getElem?_map, hbest_get]
          rfl
        apply List.getElem?_inj (by rw [List.length_map]; exact hcb) hnodup
        rw [hmap_cb, hmap_best, hurl]
      refine ⟨rfl, ?_, ?_⟩
      · rw [hidx, hbest_lget]
        simpa using hbest_mem
      · intro q hq
        rw [hidx, hbest_lget]
        exact hmin q hq
    · rw [hval, if_pos hurl]
      dsimp only
      refine ⟨rfl, ?_, ?_⟩
      · rw [hbest_lget]
        simpa using hbest_mem
      · intro q hq
        rw [hbest_lget]
        exact hmin q hq

/-- Witness for C2 (amended): two healthy endpoints, the faster second one
is published; hypotheses checked concretely with the real `sort.Slice`
embedding as the sorting function. -/
theorem selectBestEndpoint_publishes_min_latency_tipFresh_witness :
    ((stTwo.Endpoints.map RpcEndpoint.URL).Nodup ∧
      stTwo.CurrentBest < stTwo.Endpoints.length ∧
      (candidatesOf stTwo.Endpoints).isEmpty = false) ∧
    ((selectBestEndpointWith (goSortSlice lessByLatency) cfg0 stTwo).1.Endpoints
        = stTwo.Endpoints) ∧
    ((selectBestEndpointWith (goSortSlice lessByLatency) cfg0 stTwo).1.CurrentBest,
        lget stTwo.Endpoints
          (selectBestEndpointWith (goSortSlice lessByLatency) cfg0 stTwo).1.CurrentBest)
      ∈ finalCandidatesOf cfg0 stTwo.Endpoints :=
  ⟨⟨by decide, by decide, by decide⟩,
    (selectBestEndpoint_publishes_min_latency_tipFresh cfg0 stTwo
      (goSortSlice lessByLatency) (by decide) (by decide) (by decide) (by decide)
      (by decide)).1,
    (selectBestEndpoint_publishes_min_latency_tipFresh cfg0 stTwo
      (goSortSlice lessByLatency) (by decide) (by decide) (by decide) (by decide)
      (by decide)).2.1⟩

/-- C2 counterexample: with candidate blocks −3 and −8 (all below −1) and
tolerance 5, the code's −1-seeded highest block gives threshold −6 and
drops the −8 endpoint, which the claim's tip-fresh set (true maximum −3,
threshold −8) retains; the pass then publishes the slower −3 endpoint
(latency 20) although the claim's chosen set holds the −8 endpoint with
latency 10 — the published endpoint is not latency-minimal within the
claimed tip-fresh set. -/
theorem selector_minLatency_tipFresh_claim_false :
    (candidatesOf stNeg.Endpoints).isEmpty = false ∧
    (specTipFresh cfg0 stNeg.Endpoints).isEmpty = false ∧
    ¬ (∃ b ∈ specChosenSet cfg0 stNeg.Endpoints,
        (selectBestEndpointPass cfg0 stNeg).1.CurrentBest = b.1 ∧
        ∀ q ∈ specChosenSet cfg0 stNeg.Endpoints, b.2.Latency ≤ q.2.Latency) := by
  decide
